import Mathlib

/-!
Verification of the half-shekel price server (`src/server.js`).

The JavaScript source is shallowly embedded here.  JavaScript numbers are
modelled as exact rationals together with the IEEE special values NaN and
±Infinity (`JsNum`): the sign and special-value algebra of float64 is kept
faithfully, while rounding is abstracted to exact rational arithmetic.
Strings are manipulated through their character lists, mirroring the
JavaScript string operations used by the source (`trim`, `split`,
`replace`, `replaceAll`, `includes`).  JSON values delivered by the remote
providers are modelled by `JVal`; instants (the time value of a JavaScript
`Date`) are milliseconds since the epoch (`Int`).  Host-level `Date` string
parsing is an abstract parameter, and `ECMAScript ToNumber` on strings is
modelled by `jsStringToNumber` (decimal grammar, signs, `Infinity`).
Asynchronous provider attempts are embedded by their outcomes
(`Except String _`), and the sequential fallback loop by an executor that
also counts how many providers were invoked.
-/

/-- A JavaScript number: an exact rational, or one of the IEEE special
values NaN, +Infinity, -Infinity. -/
inductive JsNum where
  | real (q : ℚ)
  | nan
  | posInf
  | negInf
deriving DecidableEq

/-- `Number.isFinite`: true exactly on ordinary (non-NaN, non-infinite)
numbers. -/
def JsNum.isFinite : JsNum → Bool
  | .real _ => true
  | _ => false

/-- Multiplication of JavaScript numbers: exact rational product on
ordinary values, with the IEEE sign/special-value rules for NaN and the
infinities (rounding/overflow abstracted away). -/
def JsNum.mul : JsNum → JsNum → JsNum
  | .nan, _ => .nan
  | _, .nan => .nan
  | .real a, .real b => .real (a * b)
  | .real a, .posInf => if 0 < a then .posInf else if a < 0 then .negInf else .nan
  | .real a, .negInf => if 0 < a then .negInf else if a < 0 then .posInf else .nan
  | .posInf, .real b => if 0 < b then .posInf else if b < 0 then .negInf else .nan
  | .negInf, .real b => if 0 < b then .negInf else if b < 0 then .posInf else .nan
  | .posInf, .posInf => .posInf
  | .posInf, .negInf => .negInf
  | .negInf, .posInf => .negInf
  | .negInf, .negInf => .posInf

/-- JavaScript `String.prototype.trim` on a character list. -/
def jsTrimList (cs : List Char) : List Char :=
  ((cs.dropWhile Char.isWhitespace).reverse.dropWhile Char.isWhitespace).reverse

/-- JavaScript `String.prototype.split` with a single-character separator,
on character lists. -/
def splitChar (sep : Char) : List Char → List (List Char)
  | [] => [[]]
  | c :: cs =>
      match splitChar sep cs with
      | [] => if c = sep then [[], []] else [[c]]
      | h :: t => if c = sep then [] :: h :: t else (c :: h) :: t

/-- JavaScript `String.prototype.replace` with single-character pattern and
replacement: replaces only the first occurrence. -/
def replaceFirst (a b : Char) : List Char → List Char
  | [] => []
  | c :: cs => if c = a then b :: cs else c :: replaceFirst a b cs

/-- Longest digit prefix of a character list, and the remainder. -/
def takeDigits : List Char → List Char × List Char
  | [] => ([], [])
  | c :: cs =>
      if c.isDigit then
        let p := takeDigits cs
        (c :: p.1, p.2)
      else ([], c :: cs)

/-- Value of a digit string read in base 10. -/
def digitsToNat : List Char → Nat
  | [] => 0
  | c :: cs => digitsToNatAux (c.toNat - 48) cs
where
  digitsToNatAux (acc : Nat) : List Char → Nat
    | [] => acc
    | c :: cs => digitsToNatAux (acc * 10 + (c.toNat - 48)) cs

/-- The exponent digits of a decimal literal: one or more digits,
nothing after them. -/
def parseExpDigits (cs : List Char) : Option Nat :=
  if cs ≠ [] ∧ cs.all Char.isDigit then some (digitsToNat cs) else none

/-- The exponent part of a decimal literal: an optional sign followed by
digits. -/
def parseExp : List Char → Option Int
  | [] => none
  | c :: cs =>
      if c = '+' then (parseExpDigits cs).map Int.ofNat
      else if c = '-' then (parseExpDigits cs).map (fun n => -(Int.ofNat n))
      else (parseExpDigits (c :: cs)).map Int.ofNat

/-- Scale a mantissa by a power of ten. -/
def applyExp (base : ℚ) (e : Int) : ℚ :=
  if 0 ≤ e then base * 10 ^ e.toNat else base / 10 ^ (-e).toNat

/-- After the mantissa of a decimal literal: either nothing, or an
`e`/`E` exponent consuming the rest of the input. -/
def parseDecTail (mantissa : ℚ) : List Char → Option ℚ
  | [] => some mantissa
  | c :: cs =>
      if c = 'e' ∨ c = 'E' then (parseExp cs).map (applyExp mantissa)
      else none

/-- An unsigned decimal literal: `digits [. digits] [exp]` or
`. digits [exp]`, consuming the whole input. -/
def parseUnsignedDec (cs : List Char) : Option ℚ :=
  match takeDigits cs with
  | (ip, '.' :: r2) =>
      if ip = [] ∧ (takeDigits r2).1 = [] then none
      else
        parseDecTail
          ((digitsToNat ip : ℚ) +
            (digitsToNat (takeDigits r2).1 : ℚ) / 10 ^ (takeDigits r2).1.length)
          (takeDigits r2).2
  | (ip, r1) => if ip = [] then none else parseDecTail (digitsToNat ip : ℚ) r1

/-- An unsigned numeric literal: `Infinity` or an unsigned decimal
literal. -/
def parseUnsignedJs (cs : List Char) : Option JsNum :=
  if cs = "Infinity".data then some .posInf
  else (parseUnsignedDec cs).map JsNum.real

/-- The negation applied to a parsed unsigned literal by a leading `-`
sign (an unparseable remainder stays NaN). -/
def negOfParsed : Option JsNum → JsNum
  | some (.real q) => .real (-q)
  | some .posInf => .negInf
  | _ => .nan

/-- The trimmed input of `ToNumber`: the empty string is `0`, otherwise an
optional sign followed by `Infinity` or a decimal literal, and everything
else is NaN. -/
def jsStringToNumberT : List Char → JsNum
  | [] => .real 0
  | c :: rest =>
      if c = '+' then (parseUnsignedJs rest).getD .nan
      else if c = '-' then negOfParsed (parseUnsignedJs rest)
      else (parseUnsignedJs (c :: rest)).getD .nan

/-- Model of ECMAScript `ToNumber` applied to a string (as performed by
`Number(s)`): trim whitespace, then read the literal.  (The
hexadecimal/octal/binary literal forms, which no provider payload uses,
are not modelled.) -/
def jsStringToNumber (cs : List Char) : JsNum :=
  jsStringToNumberT (jsTrimList cs)

/-- A JSON/JavaScript value as delivered to the provider parsers. -/
inductive JVal where
  | num (x : JsNum)
  | str (s : String)
  | bool (b : Bool)
  | nullv
  | missing
  | arr (elems : List JVal)
  | obj (fields : List (String × JVal))

/-- Property read `v?.key`: the field of an object, `undefined`
otherwise. -/
def JVal.getField : JVal → String → JVal
  | .obj fields, key =>
      match fields.find? (fun p => p.1 == key) with
      | some p => p.2
      | none => .missing
  | _, _ => .missing

/-- `normalizeNumber` (src/server.js:241-259): a number is returned as is;
a string is trimmed and, depending on which of `,` and `.` it contains,
is stripped of thousands separators or has its first comma turned into a
decimal point before being handed to `Number`; everything else is NaN. -/
def normalizeNumber : JVal → JsNum
  | .num x => x
  | .str s =>
      let raw := jsTrimList s.data
      if raw = [] then .nan
      else if raw.contains ',' && raw.contains '.' then
        jsStringToNumber (raw.filter (fun c => c ≠ ','))
      else if raw.contains ',' then
        jsStringToNumber (replaceFirst ',' '.' raw)
      else jsStringToNumber raw
  | _ => .nan

/-- Truncation toward zero, as ECMAScript `ToIntegerOrInfinity` does for a
finite time value. -/
def jsTrunc (q : ℚ) : Int :=
  if 0 ≤ q then Int.floor q else Int.ceil q

/-- ECMAScript `TimeClip`: a time value farther than 8.64e15 ms from the
epoch makes the `Date` invalid (`getTime()` is NaN). -/
def jsTimeClip (ms : ℚ) : Option Int :=
  if ms ≤ 8640000000000000 ∧ -8640000000000000 ≤ ms then some (jsTrunc ms)
  else none

/-- The seconds-vs-milliseconds cutoff used by `toIsoTimestamp`. -/
def TS_CUTOFF : ℚ := 1000000000000

/-- `toIsoTimestamp` (src/server.js:217-230), with the produced instant
modelled by the `Date` time value in milliseconds (`toISOString` is
injective on valid dates, so equality of instants is preserved).  A finite
number above the cutoff is taken as milliseconds, any other finite number
as seconds; a non-blank string is handed to the host date parser
(`dateParse`); everything else — including NaN/±Infinity numbers, blank
strings and absent values — yields no timestamp. -/
def toIsoTimestamp (dateParse : String → Option Int) : JVal → Option Int
  | .num (.real q) => jsTimeClip (if q > TS_CUTOFF then q else q * 1000)
  | .num _ => none
  | .str s => if jsTrimList s.data ≠ [] then dateParse s else none
  | _ => none

/-- `getProviderUpdatedAt` (src/server.js:232-239): the first candidate
that normalizes to a timestamp, with the current time as fallback. -/
def getProviderUpdatedAt (dateParse : String → Option Int) (now : Int)
    (candidates : List JVal) : Int :=
  match candidates.findSome? (toIsoTimestamp dateParse) with
  | some t => t
  | none => now

deriving instance DecidableEq for Except

/-- The quote produced by one successful provider attempt: a numeric
value, a source label, and the observation instant. -/
structure Quote where
  value : JsNum
  source : String
  fetchedAt : Int
deriving DecidableEq

/-- The stooq.com silver provider (src/server.js:370-390): trim the CSV
payload, keep the non-blank lines, take the last one as the data row,
split it on commas, and read column 6 as the close price; a missing or
non-finite close is a parse failure.  `fetched` is the outcome of the
bounded text fetch, and `now` the current instant used for `fetchedAt`. -/
def stooqProvider (now : Int) : Except String String → Except String Quote
  | .error e => .error e
  | .ok csv =>
      let lines :=
        ((splitChar '\n' (jsTrimList csv.data)).map jsTrimList).filter
          (fun l => l ≠ [])
      if lines = [] then .error "unexpected stooq response"
      else
        let dataRow := lines.getLastD []
        let values := splitChar ',' dataRow
        let close :=
          match values.get? 6 with
          | some v => jsStringToNumber v
          | none => .nan
        if close.isFinite then .ok ⟨close, "stooq.com", now⟩
        else .error "stooq close missing"

/-- The gold-api.com silver provider (src/server.js:391-397): succeed
whenever `data.price` has number type — the only check the source makes —
and fail with `price not found` otherwise. -/
def goldApiProvider (now : Int) : Except String JVal → Except String Quote
  | .error e => .error e
  | .ok data =>
      match data.getField "price" with
      | .num x => .ok ⟨x, "gold-api.com", now⟩
      | _ => .error "price not found"

/-- The frankfurter.app USD/ILS provider (src/server.js:499-506): read
`data?.rates?.ILS`, fail unless it is a finite number, and take the
observation instant from `data?.date` with the current time as
fallback. -/
def frankfurterProvider (dateParse : String → Option Int) (now : Int) :
    Except String JVal → Except String Quote
  | .error e => .error e
  | .ok data =>
      match (data.getField "rates").getField "ILS" with
      | .num x =>
          if x.isFinite then
            .ok ⟨x, "frankfurter.app",
              getProviderUpdatedAt dateParse now [data.getField "date"]⟩
          else .error "ILS rate missing"
      | _ => .error "ILS rate missing"

/-- JavaScript `Array.prototype.join` with a separator. -/
def joinSep (sep : String) : List String → String
  | [] => ""
  | [e] => e
  | e :: rest => e ++ sep ++ joinSep sep (rest)

/-- The aggregate failure message thrown when every provider of a chain
has failed (src/server.js:423 and 538). -/
def mkFail (label : String) (errors : List String) : String :=
  "Failed to fetch " ++ label ++ ". " ++ joinSep " | " errors

/-- The provider fallback loop (src/server.js:414-423 and 529-538),
instrumented with the number of providers invoked: providers are attempted
in declared order, the first success is returned unchanged, each failure
message is accumulated, and exhaustion throws the aggregate message. -/
def chainRunT (label : String) :
    List String → Nat → List (Except String Quote) → Except String Quote × Nat
  | errs, n, [] => (.error (mkFail label errs), n)
  | _, n, .ok q :: _ => (.ok q, n + 1)
  | errs, n, .error e :: rest => chainRunT label (errs ++ [e]) (n + 1) rest

/-- The result of the provider fallback loop. -/
def chainRun (label : String) (providers : List (Except String Quote)) :
    Except String Quote :=
  (chainRunT label [] 0 providers).1

/-- The silver-price chain of `getSilverUsdPerOunce`, over the outcomes of
its providers. -/
def silverChain (providers : List (Except String Quote)) :
    Except String Quote :=
  chainRun "silver price" providers

/-- The USD/ILS chain of `getUsdIlsRate`, over the outcomes of its
providers. -/
def usdIlsChain (providers : List (Except String Quote)) :
    Except String Quote :=
  chainRun "USD/ILS rate" providers

/-- `s` contains the given strings as substrings, in order and without
overlap. -/
def containsInOrder (s : String) : List String → Prop
  | [] => True
  | e :: rest => ∃ pre post, s = pre ++ e ++ post ∧ containsInOrder post rest

/-- `SILVER_GRAMS` (src/server.js:15). -/
def SILVER_GRAMS : ℚ := 9

/-- `GRAMS_PER_TROY_OUNCE` (src/server.js:16). -/
def GRAMS_PER_TROY_OUNCE : ℚ := 31.1034768

/-- `HALF_SHEKEL_TROY_OUNCES` (src/server.js:17). -/
def HALF_SHEKEL_TROY_OUNCES : ℚ := SILVER_GRAMS / GRAMS_PER_TROY_OUNCE

/-- `VAT_RATE` (src/server.js:18). -/
def VAT_RATE : ℚ := 0.18

/-- The derived-value computation of the `/api/half-shekel` handler
(src/server.js:634-636), parametrized by the constants it reads:
`halfShekelUsd = price * (grams / gramsPerOunce)`,
`halfShekelIlsNoVat = halfShekelUsd * conversionRate`,
`halfShekelIlsWithVat = halfShekelIlsNoVat * (1 + surcharge)`. -/
def derivedValue (grams gramsPerOunce surcharge : ℚ)
    (price conversionRate : JsNum) : JsNum × JsNum × JsNum :=
  let usd := price.mul (.real (grams / gramsPerOunce))
  let noVat := usd.mul conversionRate
  (usd, noVat, noVat.mul (.real (1 + surcharge)))

/-- The market section and results of a successful `/api/half-shekel`
response (src/server.js:638-664). -/
structure MarketSuccess where
  silverUsdPerOunce : JsNum
  usdIls : JsNum
  silverSource : String
  usdIlsSource : String
  silverUpdatedAt : Int
  usdIlsUpdatedAt : Int
  halfShekelUsd : JsNum
  halfShekelIlsNoVat : JsNum
  halfShekelIlsWithVat : JsNum
deriving DecidableEq

/-- The body of an `/api/half-shekel` response: the success payload, or
the `success:false` body produced by the top-level catch
(src/server.js:807-813) with its fixed human-readable summary and the
thrown message as details. -/
inductive ApiResult where
  | success (body : MarketSuccess)
  | failure (error : String) (details : String)
deriving DecidableEq

/-- The fixed error summary of the top-level catch (src/server.js:810). -/
def UNABLE_MSG : String :=
  "Unable to load market data right now. Please try again in a minute."

/-- The `/api/half-shekel` handler (src/server.js:631-666) over the
outcomes of the two chains: `Promise.all` rejects with a failing chain's
message (no partial result), otherwise the derived values are computed
from the two quotes and returned with their sources and timestamps. -/
def handleHalfShekel (silver usdIls : Except String Quote) : ApiResult :=
  match silver, usdIls with
  | .error e, _ => .failure UNABLE_MSG e
  | .ok _, .error e => .failure UNABLE_MSG e
  | .ok s, .ok r =>
      let d := derivedValue SILVER_GRAMS GRAMS_PER_TROY_OUNCE VAT_RATE
        s.value r.value
      .success ⟨s.value, r.value, s.source, r.source, s.fetchedAt,
        r.fetchedAt, d.1, d.2.1, d.2.2⟩

/-- Dropping a whitespace prefix keeps every non-whitespace member. -/
theorem mem_dropWhile_of_not (p : Char → Bool) (a : Char) (ha : p a = false) :
    ∀ l : List Char, a ∈ l → a ∈ l.dropWhile p := by
  intro l h
  induction l with
  | nil => simp at h
  | cons c cs ih =>
      rw [List.dropWhile_cons]
      by_cases hc : p c
      · rw [if_pos hc]
        rcases List.mem_cons.mp h with rfl | hm
        · rw [ha] at hc; cases hc
        · exact ih hm
      · rw [if_neg hc]; exact h

/-- Trimming keeps every non-whitespace member. -/
theorem mem_jsTrimList {a : Char} (ha : a.isWhitespace = false)
    {l : List Char} (h : a ∈ l) : a ∈ jsTrimList l := by
  unfold jsTrimList
  exact List.mem_reverse.mpr (mem_dropWhile_of_not _ _ ha _
    (List.mem_reverse.mpr (mem_dropWhile_of_not _ _ ha _ h)))

/-- `takeDigits` splits its input. -/
theorem takeDigits_append : ∀ l : List Char,
    (takeDigits l).1 ++ (takeDigits l).2 = l := by
  intro l
  induction l with
  | nil => rfl
  | cons c cs ih =>
      unfold takeDigits
      by_cases hc : c.isDigit
      · simp only [if_pos hc, List.cons_append, ih]
      · simp only [if_neg hc, List.nil_append]

/-- Every character of the digit prefix is a digit. -/
theorem takeDigits_all_digits : ∀ l : List Char,
    ∀ c ∈ (takeDigits l).1, c.isDigit = true := by
  intro l
  induction l with
  | nil => intro c hc; simp [takeDigits] at hc
  | cons d cs ih =>
      intro c hc
      unfold takeDigits at hc
      by_cases hd : d.isDigit
      · rw [if_pos hd] at hc
        rcases List.mem_cons.mp hc with rfl | hm
        · exact hd
        · exact ih c hm
      · rw [if_neg hd] at hc; simp at hc

/-- A comma survives the digit prefix. -/
theorem comma_mem_takeDigits_snd {l : List Char} (h : ',' ∈ l) :
    ',' ∈ (takeDigits l).2 := by
  have happ := takeDigits_append l
  rw [← happ] at h
  rcases List.mem_append.mp h with h1 | h2
  · exact absurd (takeDigits_all_digits l _ h1) (by decide)
  · exact h2

/-- An exponent-digit string containing a comma is rejected. -/
theorem parseExpDigits_comma {l : List Char} (h : ',' ∈ l) :
    parseExpDigits l = none := by
  unfold parseExpDigits
  rw [if_neg]
  rintro ⟨-, hall⟩
  exact absurd (List.all_eq_true.mp hall _ h) (by decide)

/-- An exponent part containing a comma is rejected. -/
theorem parseExp_comma : ∀ {l : List Char}, ',' ∈ l → parseExp l = none := by
  intro l h
  match l, h with
  | c :: cs, h =>
      simp only [parseExp]
      rcases List.mem_cons.mp h with rfl | hm
      · rw [if_neg (by decide), if_neg (by decide),
          parseExpDigits_comma (List.mem_cons_self _ _)]
        rfl
      · by_cases h1 : c = '+'
        · rw [if_pos h1, parseExpDigits_comma hm]; rfl
        · by_cases h2 : c = '-'
          · rw [if_neg h1, if_pos h2, parseExpDigits_comma hm]; rfl
          · rw [if_neg h1, if_neg h2,
              parseExpDigits_comma (List.mem_cons_of_mem _ hm)]
            rfl

/-- A literal tail containing a comma is rejected. -/
theorem parseDecTail_comma (m : ℚ) : ∀ {l : List Char}, ',' ∈ l →
    parseDecTail m l = none := by
  intro l h
  match l, h with
  | c :: cs, h =>
      show (if c = 'e' ∨ c = 'E' then (parseExp cs).map (applyExp m) else none) =
        none
      by_cases he : c = 'e' ∨ c = 'E'
      · rw [if_pos he]
        have hm : ',' ∈ cs := by
          rcases List.mem_cons.mp h with rfl | hm
          · rcases he with he | he <;> exact absurd he (by decide)
          · exact hm
        rw [parseExp_comma hm]; rfl
      · rw [if_neg he]

/-- An unsigned decimal literal containing a comma is rejected. -/
theorem parseUnsignedDec_comma {l : List Char} (h : ',' ∈ l) :
    parseUnsignedDec l = none := by
  have h2 := comma_mem_takeDigits_snd h
  unfold parseUnsignedDec
  split
  · next ip r2 heq =>
      rw [heq] at h2
      have h4 : ',' ∈ r2 := by
        rcases List.mem_cons.mp h2 with hc | hm
        · exact absurd hc (by decide)
        · exact hm
      have h5 := comma_mem_takeDigits_snd h4
      split
      · rfl
      · exact parseDecTail_comma _ h5
  · next ip r1 hnotdot heq =>
      rw [heq] at h2
      split
      · rfl
      · exact parseDecTail_comma _ h2

/-- An unsigned literal containing a comma is rejected. -/
theorem parseUnsignedJs_comma {l : List Char} (h : ',' ∈ l) :
    parseUnsignedJs l = none := by
  have hne : l ≠ "Infinity".data := by
    intro heq; rw [heq] at h; revert h; decide
  unfold parseUnsignedJs
  rw [if_neg hne, parseUnsignedDec_comma h]
  rfl

/-- `ToNumber` of any string containing a comma is NaN. -/
theorem jsStringToNumber_comma {l : List Char} (h : ',' ∈ l) :
    jsStringToNumber l = .nan := by
  have ht : ',' ∈ jsTrimList l := mem_jsTrimList (by decide) h
  unfold jsStringToNumber
  rcases htr : jsTrimList l with - | ⟨c, rest⟩
  · rw [htr] at ht; exact absurd ht (List.not_mem_nil _)
  · rw [htr] at ht
    by_cases hplus : c = '+'
    · have hm : ',' ∈ rest := by
        rcases List.mem_cons.mp ht with hc | hm
        · rw [hplus] at hc; exact absurd hc (by decide)
        · exact hm
      simp only [jsStringToNumberT]
      rw [if_pos hplus, parseUnsignedJs_comma hm]
      rfl
    · by_cases hminus : c = '-'
      · have hm : ',' ∈ rest := by
          rcases List.mem_cons.mp ht with hc | hm
          · rw [hminus] at hc; exact absurd hc (by decide)
          · exact hm
        simp only [jsStringToNumberT]
        rw [if_neg hplus, if_pos hminus, parseUnsignedJs_comma hm]
        rfl
      · simp only [jsStringToNumberT]
        rw [if_neg hplus, if_neg hminus, parseUnsignedJs_comma ht]
        rfl

/-- `replace` rewrites exactly the first occurrence of the pattern. -/
theorem replaceFirst_first_occurrence {a b : Char} :
    ∀ (pre post : List Char), a ∉ pre →
    replaceFirst a b (pre ++ a :: post) = pre ++ b :: post := by
  intro pre
  induction pre with
  | nil =>
      intro post _
      simp [replaceFirst]
  | cons c cs ih =>
      intro post hnm
      have hca : ¬ c = a := by
        rintro rfl
        exact hnm (List.mem_cons_self _ _)
      simp only [List.cons_append, replaceFirst, List.append_eq]
      rw [if_neg hca, ih post (fun hm => hnm (List.mem_cons_of_mem _ hm))]

/-- After replacing the first of at least two commas, a comma remains. -/
theorem comma_mem_replaceFirst : ∀ {l : List Char}, 2 ≤ l.count ',' →
    ',' ∈ replaceFirst ',' '.' l := by
  intro l h
  induction l with
  | nil => simp at h
  | cons c cs ih =>
      by_cases hc : c = ','
      · subst hc
        simp only [replaceFirst, if_pos rfl]
        have h1 : 1 ≤ cs.count ',' := by
          rw [List.count_cons_self] at h; omega
        exact List.mem_cons_of_mem _ (List.count_pos_iff.mp (by omega))
      · simp only [replaceFirst, if_neg hc]
        have hcnt : 2 ≤ cs.count ',' := by
          rw [List.count_cons_of_ne (fun hh => hc hh.symm)] at h
          exact h
        exact List.mem_cons_of_mem _ (ih hcnt)

/-- Running the chain over failing providers followed by a success:
returns that success and invokes exactly the providers up to it. -/
theorem chainRunT_errors_then_ok (label : String) (q : Quote)
    (post : List (Except String Quote)) :
    ∀ (es errs : List String) (n : Nat),
    chainRunT label errs n (es.map Except.error ++ Except.ok q :: post) =
      (Except.ok q, n + es.length + 1) := by
  intro es
  induction es with
  | nil => intro errs n; rfl
  | cons e es ih =>
      intro errs n
      simp only [List.map_cons, List.cons_append, chainRunT, List.append_eq]
      rw [ih]
      congr 1
      simp only [List.length_cons]
      omega

/-- Running the chain over failing providers only: returns the aggregate
message over the accumulated failure reasons, in order. -/
theorem chainRunT_all_errors (label : String) :
    ∀ (es errs : List String) (n : Nat),
    chainRunT label errs n (es.map Except.error) =
      (Except.error (mkFail label (errs ++ es)), n + es.length) := by
  intro es
  induction es with
  | nil => intro errs n; simp [chainRunT]
  | cons e es ih =>
      intro errs n
      simp only [List.map_cons, chainRunT]
      rw [ih]
      have hl : errs ++ [e] ++ es = errs ++ e :: es := by simp
      rw [hl]
      congr 1
      simp only [List.length_cons]
      omega

/-- Every element of a separator-join occurs in it as a substring, in
order. -/
theorem containsInOrder_joinSep : ∀ (es : List String) (pfx : String),
    containsInOrder (pfx ++ joinSep " | " es) es := by
  intro es
  induction es with
  | nil => intro pfx; trivial
  | cons e rest ih =>
      intro pfx
      cases rest with
      | nil =>
          refine ⟨pfx, "", ?_, trivial⟩
          show pfx ++ e = pfx ++ e ++ ""
          rw [String.append_empty]
      | cons r rs =>
          refine ⟨pfx, " | " ++ joinSep " | " (r :: rs), ?_, ih " | "⟩
          show pfx ++ (e ++ " | " ++ joinSep " | " (r :: rs)) =
            pfx ++ e ++ (" | " ++ joinSep " | " (r :: rs))
          simp [String.append_assoc]

/-- Exhausting the silver chain produces its labelled aggregate message. -/
theorem silverChain_all_errors (es : List String) :
    silverChain (es.map Except.error) =
      .error ("Failed to fetch silver price. " ++ joinSep " | " es) := by
  have hp : ("Failed to fetch " ++ "silver price" ++ ". " : String) =
      "Failed to fetch silver price. " := by decide
  show (chainRunT "silver price" [] 0 (es.map Except.error)).1 = _
  rw [chainRunT_all_errors]
  show Except.error (mkFail "silver price" ([] ++ es)) = _
  rw [List.nil_append]
  unfold mkFail
  rw [hp]

/-- Exhausting the USD/ILS chain produces its labelled aggregate
message. -/
theorem usdIlsChain_all_errors (es : List String) :
    usdIlsChain (es.map Except.error) =
      .error ("Failed to fetch USD/ILS rate. " ++ joinSep " | " es) := by
  have hp : ("Failed to fetch " ++ "USD/ILS rate" ++ ". " : String) =
      "Failed to fetch USD/ILS rate. " := by decide
  show (chainRunT "USD/ILS rate" [] 0 (es.map Except.error)).1 = _
  rw [chainRunT_all_errors]
  show Except.error (mkFail "USD/ILS rate" ([] ++ es)) = _
  rw [List.nil_append]
  unfold mkFail
  rw [hp]

/-- C9: the numeric normalizer returns every number-typed input
unchanged — including NaN and the infinities — so it performs no
finiteness or positivity filtering itself. -/
theorem numberPassthrough :
    (∀ x : JsNum, normalizeNumber (.num x) = x) ∧
    normalizeNumber (.num .nan) = .nan ∧
    normalizeNumber (.num .posInf) = .posInf ∧
    normalizeNumber (.num .negInf) = .negInf ∧
    JsNum.isFinite (normalizeNumber (.num .nan)) = false :=
  ⟨fun _ => rfl, rfl, rfl, rfl, rfl⟩

/-- C2: with grams 9.6, the conversion constant 31.1034768, a price equal
to the conversion constant, a rate of 3.7 and a surcharge of 0.18, the
derived-value computation yields exactly 9.6 USD, 35.52 local and 41.9136
local with surcharge. -/
theorem scenarioDerivedValues :
    derivedValue 9.6 GRAMS_PER_TROY_OUNCE 0.18 (.real GRAMS_PER_TROY_OUNCE)
      (.real 3.7) = (.real 9.6, .real 35.52, .real 41.9136) := by
  norm_num [derivedValue, JsNum.mul, GRAMS_PER_TROY_OUNCE, Prod.ext_iff]

/-- C3: when the providers before the first success all fail, the chain
returns that provider's quote unchanged, invokes exactly the providers up
to and including it (k = number of failures + 1, in declared order), and
its run does not depend on the providers after the success. -/
theorem chainFirstSuccess (label : String) (es : List String) (q : Quote)
    (post : List (Except String Quote)) :
    chainRun label (es.map Except.error ++ Except.ok q :: post) = .ok q ∧
    (chainRunT label [] 0 (es.map Except.error ++ Except.ok q :: post)).2 =
      es.length + 1 ∧
    chainRunT label [] 0 (es.map Except.error ++ Except.ok q :: post) =
      chainRunT label [] 0 (es.map Except.error ++ [Except.ok q]) := by
  refine ⟨?_, ?_, ?_⟩
  · show (chainRunT label [] 0 _).1 = _
    rw [chainRunT_errors_then_ok]
  · rw [chainRunT_errors_then_ok]
    simp
  · rw [chainRunT_errors_then_ok, chainRunT_errors_then_ok]

/-- C4: when every provider of a chain fails, the chain fails with a
single message that starts with the label of the quantity and contains
every individual failure reason as a substring, in attempt order. -/
theorem chainExhaustionAggregate (es : List String) :
    silverChain (es.map Except.error) =
      .error ("Failed to fetch silver price. " ++ joinSep " | " es) ∧
    usdIlsChain (es.map Except.error) =
      .error ("Failed to fetch USD/ILS rate. " ++ joinSep " | " es) ∧
    containsInOrder ("Failed to fetch silver price. " ++ joinSep " | " es)
      es ∧
    containsInOrder ("Failed to fetch USD/ILS rate. " ++ joinSep " | " es)
      es :=
  ⟨silverChain_all_errors es, usdIlsChain_all_errors es,
    containsInOrder_joinSep es _, containsInOrder_joinSep es _⟩

/-- C1 counterexample: the gold-api provider accepts a NaN price — a
number-typed but non-finite value — as a successful quote, so a non-finite
extracted value is not converted into a parse failure there. -/
theorem goldApiNanPropagates :
    goldApiProvider 0 (.ok (.obj [("price", .num .nan)])) =
      .ok ⟨.nan, "gold-api.com", 0⟩ ∧
    JsNum.isFinite .nan = false :=
  ⟨rfl, rfl⟩

/-- C1 amended: the stooq and frankfurter parsers only return finite
(non-NaN) values in successful quotes, but no parser checks strict
positivity — a negative stooq close is propagated as a success — and the
gold-api parser accepts any number-typed value. -/
theorem providerFinitenessAmended :
    (∀ (now : Int) (f : Except String String) (q : Quote),
        stooqProvider now f = .ok q → q.value.isFinite = true) ∧
    (∀ (dp : String → Option Int) (now : Int) (f : Except String JVal)
        (q : Quote),
        frankfurterProvider dp now f = .ok q → q.value.isFinite = true) ∧
    stooqProvider 0 (.ok "XAGUSD,20240101,000000,30,31,29,-1,xx") =
      .ok ⟨.real (-1), "stooq.com", 0⟩ := by
  refine ⟨?_, ?_, rfl⟩
  · intro now f q h
    cases f with
    | error e => exact Except.noConfusion h
    | ok csv =>
        simp only [stooqProvider] at h
        split at h
        · exact Except.noConfusion h
        · split at h
          · next hfin =>
              cases h
              exact hfin
          · exact Except.noConfusion h
  · intro dp now f q h
    cases f with
    | error e => exact Except.noConfusion h
    | ok data =>
        simp only [frankfurterProvider] at h
        split at h
        · split at h
          · next hfin =>
              cases h
              exact hfin
          · exact Except.noConfusion h
        · exact Except.noConfusion h

/-- A successful stooq quote with a finite close, instantiating the
finiteness half of the amended statement at a concrete CSV payload. -/
theorem providerFinitenessAmendedWitness :
    JsNum.isFinite (Quote.value ⟨.real 35, "stooq.com", 0⟩) = true :=
  providerFinitenessAmended.1 0 (.ok "XAGUSD,20240101,000000,30,36,29,35")
    ⟨.real 35, "stooq.com", 0⟩ rfl

/-- C5: the numeric normalizer returns number inputs unchanged; a trimmed
string containing both a comma and a dot is parsed with all commas
stripped; one containing only a comma is parsed with its first comma
turned into a dot; any other string is parsed directly; and the four
canonical examples evaluate as specified, with `"abc"` producing NaN. -/
theorem normalizeNumberRules :
    (∀ x : JsNum, normalizeNumber (.num x) = x) ∧
    (∀ s : String,
      (jsTrimList s.data).contains ',' = true →
      (jsTrimList s.data).contains '.' = true →
      normalizeNumber (.str s) =
        jsStringToNumber ((jsTrimList s.data).filter (fun c => c ≠ ','))) ∧
    (∀ s : String,
      jsTrimList s.data ≠ [] →
      (jsTrimList s.data).contains ',' = true →
      (jsTrimList s.data).contains '.' = false →
      normalizeNumber (.str s) =
        jsStringToNumber (replaceFirst ',' '.' (jsTrimList s.data))) ∧
    (∀ s : String,
      jsTrimList s.data ≠ [] →
      (jsTrimList s.data).contains ',' = false →
      normalizeNumber (.str s) = jsStringToNumber (jsTrimList s.data)) ∧
    normalizeNumber (.str "1,234.56") = .real 1234.56 ∧
    normalizeNumber (.str "1234,56") = .real 1234.56 ∧
    normalizeNumber (.str "1234.56") = .real 1234.56 ∧
    normalizeNumber (.str "abc") = .nan := by
  have harith : JsNum.real ((1234 : ℚ) + (56 : ℚ) / 10 ^ 2) = .real 1234.56 := by
    norm_num
  refine ⟨fun x => rfl, ?_, ?_, ?_,
    (rfl : normalizeNumber (.str "1,234.56") =
      .real ((1234 : ℚ) + (56 : ℚ) / 10 ^ 2)).trans harith,
    (rfl : normalizeNumber (.str "1234,56") =
      .real ((1234 : ℚ) + (56 : ℚ) / 10 ^ 2)).trans harith,
    (rfl : normalizeNumber (.str "1234.56") =
      .real ((1234 : ℚ) + (56 : ℚ) / 10 ^ 2)).trans harith,
    rfl⟩
  · intro s h1 h2
    have hne : jsTrimList s.data ≠ [] := by
      intro he
      rw [he] at h1
      simp at h1
    simp only [normalizeNumber]
    rw [if_neg hne, if_pos (by rw [h1, h2]; decide)]
  · intro s hne h1 h2
    simp only [normalizeNumber]
    rw [if_neg hne, if_neg (by rw [h1, h2]; decide), if_pos h1]
  · intro s hne h1
    simp only [normalizeNumber]
    rw [if_neg hne, if_neg (by rw [h1]; simp), if_neg (by rw [h1]; simp)]

/-- The comma-only and direct parse rules instantiated at concrete
strings. -/
theorem normalizeNumberRulesWitness :
    normalizeNumber (.str "1234,56") =
      jsStringToNumber (replaceFirst ',' '.' (jsTrimList "1234,56".data)) ∧
    normalizeNumber (.str "abc") =
      jsStringToNumber (jsTrimList "abc".data) :=
  ⟨normalizeNumberRules.2.2.1 "1234,56" (by decide) (by decide) (by decide),
   normalizeNumberRules.2.2.2.1 "abc" (by decide) (by decide)⟩

/-- C10: `replace` rewrites only the first comma, so a trimmed string
with two or more commas and no dot still contains a comma after the
replacement and parses to NaN; in particular the grouped integer
`"1,234,567"` normalizes to NaN, not to 1234567. -/
theorem commaGroupedIntNaN :
    (∀ (pre post : List Char), ',' ∉ pre →
      replaceFirst ',' '.' (pre ++ ',' :: post) = pre ++ '.' :: post) ∧
    (∀ s : String, 2 ≤ (jsTrimList s.data).count ',' →
      '.' ∉ jsTrimList s.data → normalizeNumber (.str s) = .nan) ∧
    normalizeNumber (.str "1,234,567") = .nan ∧
    JsNum.nan ≠ .real 1234567 := by
  refine ⟨fun pre post h => replaceFirst_first_occurrence pre post h, ?_,
    rfl, by decide⟩
  intro s hcnt hdot
  have hmem : ',' ∈ jsTrimList s.data := List.count_pos_iff.mp (by omega)
  have hne : jsTrimList s.data ≠ [] := by
    intro he
    rw [he] at hmem
    exact List.not_mem_nil _ hmem
  have hc1 : (jsTrimList s.data).contains ',' = true := by
    simp only [List.contains, List.elem_eq_mem, decide_eq_true_eq]
    exact hmem
  have hd : (jsTrimList s.data).contains '.' = false := by
    simp only [List.contains, List.elem_eq_mem, decide_eq_false_iff_not]
    exact hdot
  simp only [normalizeNumber]
  rw [if_neg hne, if_neg (by rw [hc1, hd]; decide), if_pos hc1]
  exact jsStringToNumber_comma (comma_mem_replaceFirst hcnt)

/-- The grouped-integer rule instantiated at `"1,234,567"`. -/
theorem commaGroupedIntNaNWitness :
    replaceFirst ',' '.' (['1'] ++ ',' :: "234,567".data) =
      ['1'] ++ '.' :: "234,567".data ∧
    normalizeNumber (.str "1,234,567") = .nan :=
  ⟨commaGroupedIntNaN.1 ['1'] "234,567".data (by decide),
   commaGroupedIntNaN.2.1 "1,234,567" (by decide) (by decide)⟩

/-- C6: a finite number above 1e12 is read as milliseconds and any other
finite number as seconds, so 1700000000 and 1700000000000 normalize to
the same instant; a string the host date parser rejects, or an absent
value, yields no timestamp; and when every candidate fails to normalize,
the caller falls back to the current time, so freshness metadata never
causes a failure. -/
theorem timestampNormalization :
    (∀ dp : String → Option Int,
      toIsoTimestamp dp (.num (.real 1700000000)) = some 1700000000000 ∧
      toIsoTimestamp dp (.num (.real 1700000000000)) =
        some 1700000000000) ∧
    (∀ (dp : String → Option Int) (s : String), dp s = none →
      toIsoTimestamp dp (.str s) = none) ∧
    (∀ dp : String → Option Int, toIsoTimestamp dp .missing = none) ∧
    (∀ (dp : String → Option Int) (now : Int) (cands : List JVal),
      (∀ c ∈ cands, toIsoTimestamp dp c = none) →
      getProviderUpdatedAt dp now cands = now) := by
  have hsec : ((1700000000 : ℚ) * 1000) = 1700000000000 := by norm_num
  have hclip : jsTimeClip (1700000000000 : ℚ) = some 1700000000000 := by
    decide
  refine ⟨?_, ?_, fun dp => rfl, ?_⟩
  · intro dp
    constructor
    · show jsTimeClip ((1700000000 : ℚ) * 1000) = some 1700000000000
      rw [hsec, hclip]
    · exact hclip
  · intro dp s h
    simp only [toIsoTimestamp]
    split
    · exact h
    · rfl
  · intro dp now cands hall
    unfold getProviderUpdatedAt
    rw [List.findSome?_eq_none_iff.mpr hall]

/-- The fallback-to-now rule instantiated with a date parser that rejects
everything and a single unparseable candidate. -/
theorem timestampNormalizationWitness :
    toIsoTimestamp (fun _ => none) (.str "not a date") = none ∧
    getProviderUpdatedAt (fun _ => none) 7 [.str "not a date"] = 7 :=
  ⟨timestampNormalization.2.1 (fun _ => none) "not a date" rfl,
   timestampNormalization.2.2.2 (fun _ => none) 7 [.str "not a date"]
     (fun c hc => by
        rw [List.mem_singleton] at hc
        subst hc
        rfl)⟩

/-- C7: the handler fails as a whole — with the fixed summary and the
failing chain's aggregate message as details, and no partial market
data — whenever either chain fails (when both fail, the details are one
of the two aggregate messages), and a success carries exactly the two
resolved quotes with their sources and timestamps. -/
theorem aggregatorAllOrNothing :
    (∀ (e : String) (q : Quote),
      handleHalfShekel (.error e) (.ok q) = .failure UNABLE_MSG e) ∧
    (∀ (q : Quote) (e : String),
      handleHalfShekel (.ok q) (.error e) = .failure UNABLE_MSG e) ∧
    (∀ e e2 : String,
      handleHalfShekel (.error e) (.error e2) = .failure UNABLE_MSG e ∨
      handleHalfShekel (.error e) (.error e2) = .failure UNABLE_MSG e2) ∧
    (∀ qs qr : Quote,
      handleHalfShekel (.ok qs) (.ok qr) =
        .success ⟨qs.value, qr.value, qs.source, qr.source, qs.fetchedAt,
          qr.fetchedAt,
          (derivedValue SILVER_GRAMS GRAMS_PER_TROY_OUNCE VAT_RATE qs.value
            qr.value).1,
          (derivedValue SILVER_GRAMS GRAMS_PER_TROY_OUNCE VAT_RATE qs.value
            qr.value).2.1,
          (derivedValue SILVER_GRAMS GRAMS_PER_TROY_OUNCE VAT_RATE qs.value
            qr.value).2.2⟩) ∧
    (∀ (es : List String) (r : Except String Quote),
      handleHalfShekel (silverChain (es.map Except.error)) r =
        .failure UNABLE_MSG
          ("Failed to fetch silver price. " ++ joinSep " | " es)) ∧
    (∀ (q : Quote) (es : List String),
      handleHalfShekel (.ok q) (usdIlsChain (es.map Except.error)) =
        .failure UNABLE_MSG
          ("Failed to fetch USD/ILS rate. " ++ joinSep " | " es)) := by
  refine ⟨fun e q => rfl, fun q e => rfl, fun e e2 => Or.inl rfl,
    fun qs qr => rfl, ?_, ?_⟩
  · intro es r
    rw [silverChain_all_errors]
    cases r <;> rfl
  · intro q es
    rw [usdIlsChain_all_errors]
    rfl

/-- C8: for positive price, rate and surcharge, the with-surcharge value
is exactly the no-surcharge value times (1 + surcharge), and strictly
exceeds it. -/
theorem surchargeRelation (p r s : ℚ) (hp : 0 < p) (hr : 0 < r)
    (hs : 0 < s) :
    (derivedValue SILVER_GRAMS GRAMS_PER_TROY_OUNCE s (.real p)
      (.real r)).2.2 =
      JsNum.mul
        (derivedValue SILVER_GRAMS GRAMS_PER_TROY_OUNCE s (.real p)
          (.real r)).2.1
        (.real (1 + s)) ∧
    ∃ nv wv : ℚ,
      (derivedValue SILVER_GRAMS GRAMS_PER_TROY_OUNCE s (.real p)
        (.real r)).2.1 = .real nv ∧
      (derivedValue SILVER_GRAMS GRAMS_PER_TROY_OUNCE s (.real p)
        (.real r)).2.2 = .real wv ∧
      nv < wv := by
  constructor
  · rfl
  · refine ⟨p * (SILVER_GRAMS / GRAMS_PER_TROY_OUNCE) * r,
      p * (SILVER_GRAMS / GRAMS_PER_TROY_OUNCE) * r * (1 + s), rfl, rfl, ?_⟩
    have hq : (0 : ℚ) < SILVER_GRAMS / GRAMS_PER_TROY_OUNCE := by
      norm_num [SILVER_GRAMS, GRAMS_PER_TROY_OUNCE]
    have hA : 0 < p * (SILVER_GRAMS / GRAMS_PER_TROY_OUNCE) * r :=
      mul_pos (mul_pos hp hq) hr
    nlinarith [mul_pos hA hs]

/-- The surcharge relation instantiated at price 1, rate 1 and
surcharge 1. -/
theorem surchargeRelationWitness :
    (derivedValue SILVER_GRAMS GRAMS_PER_TROY_OUNCE 1 (.real 1)
      (.real 1)).2.2 =
      JsNum.mul
        (derivedValue SILVER_GRAMS GRAMS_PER_TROY_OUNCE 1 (.real 1)
          (.real 1)).2.1
        (.real (1 + 1)) ∧
    ∃ nv wv : ℚ,
      (derivedValue SILVER_GRAMS GRAMS_PER_TROY_OUNCE 1 (.real 1)
        (.real 1)).2.1 = .real nv ∧
      (derivedValue SILVER_GRAMS GRAMS_PER_TROY_OUNCE 1 (.real 1)
        (.real 1)).2.2 = .real wv ∧
      nv < wv :=
  surchargeRelation 1 1 1 one_pos one_pos one_pos
